import Mathlib

/-!
Verification of the PEPit symbolic-to-SDP compiler core (`PEPit/pep.py`).

The orchestrator `PEP` (pep.py) is embedded directly from the source.  The
collaborator classes `Point`, `Expression`, `Function` are not part of the
sources under verification (pep.py only imports them), so their data model is
modelled from the specification (sections 3 and 4.2 of the spec): a Point is a
leaf basis vector or a composite linear combination; an Expression is a leaf
function value or a canonical weighted mapping whose keys are leaf
function-value indices, ordered pairs of leaf-point indices (inner products),
or the constant symbol; a Function records oracle triplets and emits its class
constraints on demand.  A fourth key variant represents a malformed or
externally-injected decomposition key, which the spec declares invalid.
-/

namespace PEPit

/-- Modelled from the spec: the keys of an Expression decomposition mapping
are (a) a leaf function-value index, (b) an ordered pair of leaf-point
indices standing for their inner product, (c) the constant symbol `1`.
`other` stands for a malformed or externally-injected key of any further
kind. -/
inductive DecompositionKey where
  | functionValue (counter : Nat)
  | pointPair (c1 c2 : Nat)
  | constant1
  | other (tag : Nat)
deriving DecidableEq, Repr

/-- Modelled from the spec: an Expression is either a leaf function value
(`_is_function_value`, carrying its fresh basis index `counter`) or a
composite with a canonical decomposition mapping, represented as an
association list of key/weight entries. -/
inductive Expression where
  | functionValue (counter : Nat)
  | composite (decomposition_dict : List (DecompositionKey × ℚ))
deriving DecidableEq, Repr

/-- The `_is_function_value` flag of an Expression. -/
def Expression.is_function_value : Expression → Bool
  | .functionValue _ => true
  | .composite _ => false

/-- The `counter` attribute of a leaf function-value Expression (composites
carry no meaningful counter; `0` is returned and only ever read under an
`is_function_value` guard, as in the source). -/
def Expression.counter : Expression → Nat
  | .functionValue c => c
  | .composite _ => 0

/-- The flattened linear form of an Expression: weights on the function-value
vector `F`, weights on the Gram matrix `G`, and a scalar constant.  This is
the triple `(Fweights, Gweights, cvxpy_variable)` built by
`PEP.expression_to_cvxpy` (pep.py lines 104-131). -/
@[ext]
structure LinForm where
  Fweights : Nat → ℚ
  Gweights : Nat → Nat → ℚ
  cst : ℚ

/-- The all-zero linear form (`np.zeros` initialisations at pep.py 104-106). -/
def zeroLinForm : LinForm :=
  { Fweights := fun _ => 0, Gweights := fun _ _ => 0, cst := 0 }

/-- `Fweights[i] += w` (pep.py lines 110 and 117). -/
def addFweight (lf : LinForm) (i : Nat) (w : ℚ) : LinForm :=
  { lf with Fweights := fun j => if j = i then lf.Fweights j + w else lf.Fweights j }

/-- `Gweights[i, j] += w` (pep.py line 123). -/
def addGweight (lf : LinForm) (i j : Nat) (w : ℚ) : LinForm :=
  { lf with Gweights := fun a b =>
      if a = i ∧ b = j then lf.Gweights a b + w else lf.Gweights a b }

/-- The message of the `TypeError` raised at pep.py line 129. -/
def typeErrorMsg : String :=
  "Expressions are made of function values, inner products and constants only!"

/-- One iteration of the decomposition loop of `PEP.expression_to_cvxpy`
(pep.py lines 113-129): distribute one key/weight entry onto the accumulated
linear form, or raise on an unrecognized key kind. -/
def flattenStep (acc : Except String LinForm) (kw : DecompositionKey × ℚ) :
    Except String LinForm :=
  match acc with
  | .error e => .error e
  | .ok lf =>
    match kw.1 with
    | .functionValue i => .ok (addFweight lf i kw.2)
    | .pointPair i j => .ok (addGweight lf i j kw.2)
    | .constant1 => .ok { lf with cst := lf.cst + kw.2 }
    | .other _ => .error typeErrorMsg

/-- `PEP.expression_to_cvxpy` (pep.py lines 93-134): a leaf function value
contributes unit weight at its own `F` index; a composite distributes every
decomposition entry by key kind, raising `TypeError` on an unrecognized key.
The cvxpy-variable result is represented by its linear form. -/
def expression_to_cvxpy : Expression → Except String LinForm
  | .functionValue c => .ok (addFweight zeroLinForm c 1)
  | .composite d => d.foldl flattenStep (.ok zeroLinForm)

/-- Specification-side accumulator: the total weight that the entries of a
decomposition with key `functionValue i` contribute to `F` cell `i`. -/
def sumFweights (d : List (DecompositionKey × ℚ)) (i : Nat) : ℚ :=
  match d with
  | [] => 0
  | kw :: t => (if kw.1 = DecompositionKey.functionValue i then kw.2 else 0) + sumFweights t i

/-- Specification-side accumulator: the total weight that the entries of a
decomposition with key `pointPair i j` (that exact ordered pair) contribute
to Gram cell `(i, j)`. -/
def sumGweights (d : List (DecompositionKey × ℚ)) (i j : Nat) : ℚ :=
  match d with
  | [] => 0
  | kw :: t => (if kw.1 = DecompositionKey.pointPair i j then kw.2 else 0) + sumGweights t i j

/-- Specification-side accumulator: the total weight of constant entries. -/
def sumConst (d : List (DecompositionKey × ℚ)) : ℚ :=
  match d with
  | [] => 0
  | kw :: t => (if kw.1 = DecompositionKey.constant1 then kw.2 else 0) + sumConst t

/-- The flattened linear form of a composite decomposition, stated the way
the spec describes it: each cell holds the sum of the weights of the entries
mapping onto it. -/
def flattenSpecForm (d : List (DecompositionKey × ℚ)) : LinForm :=
  { Fweights := fun i => sumFweights d i,
    Gweights := fun i j => sumGweights d i j,
    cst := sumConst d }

/-- Unit weight on `F` index `c`: the spec-side flattening of a leaf function
value. -/
def unitFweight (c : Nat) : LinForm :=
  { Fweights := fun j => if j = c then 1 else 0, Gweights := fun _ _ => 0, cst := 0 }

/-- The flattened linear form as the spec describes it, for any Expression. -/
def flattenTotal : Expression → LinForm
  | .functionValue c => unitFweight c
  | .composite d => flattenSpecForm d

/-- A decomposition key is recognized unless it is of the malformed kind. -/
def keyOk : DecompositionKey → Bool
  | .other _ => false
  | _ => true

/-- An Expression is well formed when all its decomposition keys are
recognized kinds. -/
def Expression.wf : Expression → Bool
  | .functionValue _ => true
  | .composite d => d.all fun kw => keyOk kw.1

/-- Modelled from the spec: a Point is either a leaf basis vector carrying
its fresh unique index, or a composite lazy linear combination of leaves
(a mapping from leaf-point index to coefficient). -/
inductive Point where
  | leaf (counter : Nat)
  | comp (decomposition : List (Nat × ℚ))
deriving DecidableEq, Repr

/-- The `_is_leaf` flag of a Point. -/
def Point.is_leaf : Point → Bool
  | .leaf _ => true
  | .comp _ => false

/-- The `counter` attribute of a leaf Point (composites carry no meaningful
counter; `0` is returned and only ever read under an `is_leaf` guard, as in
the source). -/
def Point.counter : Point → Nat
  | .leaf c => c
  | .comp _ => 0

/-- Modelled from the spec: a Function records whether it is a leaf, its
unique index, the ordered list of recorded oracle triplets
`(point, gradient, function value)` and its list of constraint Expressions.
The class-specific interpolation inequalities that
`add_class_constraints()` emits over the recorded triplets are external
domain theory; they appear here as the externally supplied list
`class_constraints`, and `acc_count` counts how often
`add_class_constraints` has run. -/
structure Function where
  is_leaf : Bool
  counter : Nat
  list_of_points : List (Point × Point × Expression)
  list_of_constraints : List Expression
  class_constraints : List Expression
  acc_count : Nat

/-- Modelled from the spec: `add_class_constraints()` appends the emitted
class-specific interpolation inequality Expressions to the function constraint list (each later read as `expression ≤ 0`). -/
def add_class_constraints (f : Function) : Function :=
  { f with list_of_constraints := f.list_of_constraints ++ f.class_constraints,
           acc_count := f.acc_count + 1 }

/-- The process-wide basis-registry counters: `Point.counter`,
`Expression.counter`, `Function.counter` and the class counter
`PEP.counter` (pep.py lines 13-26). -/
structure Counters where
  point : Nat
  expr : Nat
  func : Nat
  pep : Nat
deriving DecidableEq, Repr

/-- The state of one problem instance: `PEP.__init__` fields
(pep.py lines 28-35). -/
structure PEPState where
  counter : Nat
  list_of_functions : List Function
  list_of_points : List Point
  list_of_conditions : List Expression
  list_of_performance_metrics : List Expression

/-- `PEP.__init__` (pep.py lines 17-35): reset the `Point`, `Expression`
and `Function` counters to zero, take and bump the class counter, and start
with empty lists. -/
def PEP_init (g : Counters) : PEPState × Counters :=
  ({ counter := g.pep,
     list_of_functions := [],
     list_of_points := [],
     list_of_conditions := [],
     list_of_performance_metrics := [] },
   { point := 0, expr := 0, func := 0, pep := g.pep + 1 })

/-- `PEP.set_initial_point` (pep.py lines 57-71): mint a leaf Point
(`Point(is_leaf=True)` takes the current `Point.counter` as its index and
increments it — modelled from the spec, the Point class itself is not among
the sources) and append it to `list_of_points`. -/
def set_initial_point (pep : PEPState) (g : Counters) : Point × PEPState × Counters :=
  let x := Point.leaf g.point
  (x,
   { pep with list_of_points := pep.list_of_points ++ [x] },
   { g with point := g.point + 1 })

/-- `PEP.set_initial_condition` (pep.py lines 73-81). -/
def set_initial_condition (pep : PEPState) (condition : Expression) : PEPState :=
  { pep with list_of_conditions := pep.list_of_conditions ++ [condition] }

/-- `PEP.set_performance_metric` (pep.py lines 83-91). -/
def set_performance_metric (pep : PEPState) (e : Expression) : PEPState :=
  { pep with list_of_performance_metrics := pep.list_of_performance_metrics ++ [e] }

/-- `PEP.declare_function` (pep.py lines 37-55): instantiate a leaf function
(the constructor takes the current `Function.counter` as its index and
increments it — modelled from the spec) and register it.  The analytic class
of the function is abstracted into the constraints it will emit. -/
def declare_function (pep : PEPState) (g : Counters)
    (class_constraints : List Expression) : Function × PEPState × Counters :=
  let f : Function :=
    { is_leaf := true, counter := g.func, list_of_points := [],
      list_of_constraints := [], class_constraints := class_constraints,
      acc_count := 0 }
  (f,
   { pep with list_of_functions := pep.list_of_functions ++ [f] },
   { g with func := g.func + 1 })

/-- Iterate `set_initial_point` and discard the returned points (their
identity is recoverable from `list_of_points`). -/
def mintPoints : Nat → PEPState × Counters → PEPState × Counters
  | 0, s => s
  | n + 1, s => mintPoints n (set_initial_point s.1 s.2).2

/-- The sense of the compiled objective: `cp.Maximize(objective)`
(pep.py line 189). -/
inductive ObjSense where
  | maximize
  | minimize
deriving DecidableEq, Repr

/-- One compiled SDP constraint: either `objective <= linear_form`
(pep.py line 161) or `linear_form <= 0` (pep.py lines 168 and 182). -/
inductive SDPConstraint where
  | objLe (lf : LinForm)
  | le0 (lf : LinForm)

/-- The compiled SDP handed to `cp.Problem` (pep.py line 189), together
with the state of the declared functions after compilation. -/
structure Compiled where
  sense : ObjSense
  constraints : List SDPConstraint
  functions : List Function

/-- The performance-metric loop of `PEP.solve` (pep.py lines 160-161):
append `objective <= flatten(metric)` for each metric in order. -/
def compileMetrics : List Expression → List SDPConstraint →
    Except String (List SDPConstraint)
  | [], acc => .ok acc
  | m :: t, acc =>
    match expression_to_cvxpy m with
    | .error e => .error e
    | .ok lf => compileMetrics t (acc ++ [SDPConstraint.objLe lf])

/-- The `flatten(expression) <= 0` loop shape shared by the initial-condition
loop (pep.py lines 167-168) and the per-function class-constraint loop
(pep.py lines 181-182). -/
def compileLe0 : List Expression → List SDPConstraint →
    Except String (List SDPConstraint)
  | [], acc => .ok acc
  | c :: t, acc =>
    match expression_to_cvxpy c with
    | .error e => .error e
    | .ok lf => compileLe0 t (acc ++ [SDPConstraint.le0 lf])

/-- The function loop of `PEP.solve` (pep.py lines 177-184): for each
declared function in order, call `add_class_constraints()` once, then append
`flatten(constraint) <= 0` for every constraint the function now holds.
Returns the accumulated constraints and the functions in their
post-compilation state. -/
def compileFunctions : List Function → List SDPConstraint →
    Except String (List SDPConstraint × List Function)
  | [], acc => .ok (acc, [])
  | f :: t, acc =>
    let f2 := add_class_constraints f
    match compileLe0 f2.list_of_constraints acc with
    | .error e => .error e
    | .ok acc2 =>
      match compileFunctions t acc2 with
      | .error e => .error e
      | .ok (acc3, fs) => .ok (acc3, f2 :: fs)

/-- The compilation phase of `PEP.solve` (pep.py lines 146-189): build the
constraint list from the performance metrics, the initial conditions and
the class constraints of every declared function, and maximize the scalar
objective variable. -/
def solve_compile (pep : PEPState) : Except String Compiled :=
  match compileMetrics pep.list_of_performance_metrics [] with
  | .error e => .error e
  | .ok c1 =>
    match compileLe0 pep.list_of_conditions c1 with
    | .error e => .error e
    | .ok c2 =>
      match compileFunctions pep.list_of_functions c2 with
      | .error e => .error e
      | .ok (c3, fs) =>
        .ok { sense := ObjSense.maximize, constraints := c3, functions := fs }

/-- The compiled constraint list as the spec states it: `t ≤ flatten(m)` for
every performance metric `m`, then `flatten(c) ≤ 0` for every initial
condition `c`, then `flatten(k) ≤ 0` for every class constraint `k` emitted
by each declared function, in declaration order. -/
def spec_constraints (pep : PEPState) : List SDPConstraint :=
  pep.list_of_performance_metrics.map (fun m => SDPConstraint.objLe (flattenTotal m))
    ++ pep.list_of_conditions.map (fun c => SDPConstraint.le0 (flattenTotal c))
    ++ pep.list_of_functions.flatMap
        (fun f => f.class_constraints.map (fun k => SDPConstraint.le0 (flattenTotal k)))

/-- All Expressions a problem instance hands to the compiler are well
formed. -/
def PEPState.wf (pep : PEPState) : Bool :=
  pep.list_of_performance_metrics.all Expression.wf
    && pep.list_of_conditions.all Expression.wf
    && pep.list_of_functions.all (fun f => f.class_constraints.all Expression.wf)

/-- Modelled from the spec: the outputs of the external dense linear-algebra
provider for the numeric Gram matrix the solver returned.  `eig_val` is the
eigenvalue list of `np.linalg.eig(G_value)`; `points_values` is the `R`
factor of the QR decomposition of `(np.sqrt(eig_val) * eig_vec).T`, as a
function of the clipped eigenvalue list (row index, then column index). -/
structure GramValue where
  eig_val : List ℚ
  points_values : List ℚ → Nat → Nat → ℚ

/-- `np.min` over a list: `none` on the empty list (where `np.min` raises a
`ValueError`). -/
def np_min : List ℚ → Option ℚ
  | [] => none
  | x :: t =>
    match np_min t with
    | none => some x
    | some m => some (min x m)

/-- The tolerance `10 ** -4` of the assertion at pep.py line 218. -/
def assertTolerance : ℚ := 1 / 10000

/-- `np.maximum(eig_val, 0)` applied to one eigenvalue (pep.py line 219). -/
def clipEigenvalue (x : ℚ) : ℚ := max x 0

/-- The message of the failed assertion at pep.py line 218. -/
def assertErrorMsg : String := "AssertionError"

/-- The error raised by `np.min` on a zero-size array. -/
def emptyEigMsg : String := "ValueError: zero-size array reduction"

/-- Column `c` of the `points_values` matrix: `points_values[:, c]`
(pep.py lines 229, 235, 237). -/
def column (pv : Nat → Nat → ℚ) (c : Nat) : Nat → ℚ := fun r => pv r c

/-- The concrete certificate: the `value` attributes assigned to leaf
Points (and gradients) and to leaf function-value Expressions by
`PEP.eval_points_and_function_values`.  Represented as association lists
from the assigned objects to their assigned values. -/
structure Certificate where
  point_values : List (Point × (Nat → ℚ))
  function_values : List (Expression × ℚ)

/-- The state of the value store before any assignment. -/
def emptyCertificate : Certificate :=
  { point_values := [], function_values := [] }

/-- The point/gradient assignments of one recorded oracle triplet
(pep.py lines 232-237): the point and gradient of the triplet each receive the
`points_values` column of their own counter when they are leaves. -/
def pointAssignmentsOfTriplet (pv : Nat → Nat → ℚ) (tr : Point × Point × Expression) :
    List (Point × (Nat → ℚ)) :=
  (if tr.1.is_leaf then [(tr.1, column pv tr.1.counter)] else [])
    ++ (if tr.2.1.is_leaf then [(tr.2.1, column pv tr.2.1.counter)] else [])

/-- The function-value assignment of one recorded oracle triplet
(pep.py lines 238-239): the function value of the triplet receives
`F_value[counter]` when it is a leaf function value. -/
def valueAssignmentsOfTriplet (F_value : Nat → ℚ) (tr : Point × Point × Expression) :
    List (Expression × ℚ) :=
  if tr.2.2.is_function_value then [(tr.2.2, F_value tr.2.2.counter)] else []

/-- The assignment loops of `PEP.eval_points_and_function_values`
(pep.py lines 224-239): every leaf point of `list_of_points` gets its
`points_values` column; every leaf function contributes the assignments of
its recorded triplets. -/
def buildCertificate (pep : PEPState) (F_value : Nat → ℚ) (pv : Nat → Nat → ℚ) :
    Certificate :=
  { point_values :=
      (pep.list_of_points.filter (fun p => p.is_leaf)).map
          (fun p => (p, column pv p.counter))
        ++ pep.list_of_functions.flatMap
            (fun f =>
              if f.is_leaf then f.list_of_points.flatMap (pointAssignmentsOfTriplet pv)
              else []),
    function_values :=
      pep.list_of_functions.flatMap
        (fun f =>
          if f.is_leaf then f.list_of_points.flatMap (valueAssignmentsOfTriplet F_value)
          else []) }

/-- `PEP.eval_points_and_function_values` (pep.py lines 206-239): take the
eigenvalues of the returned Gram matrix, assert that the smallest one is at
least `-10**-4` (a failed `assert` aborts before any assignment), clip the
negative ones to zero, extract the point coordinates through the QR factorisation of the provider, and assign the values of all leaf points, gradients and
function values. -/
def eval_points_and_function_values (pep : PEPState) (F_value : Nat → ℚ)
    (G_value : GramValue) : Except String Certificate :=
  match np_min G_value.eig_val with
  | none => .error emptyEigMsg
  | some m =>
    if m < -assertTolerance then .error assertErrorMsg
    else
      .ok (buildCertificate pep F_value
        (G_value.points_values (G_value.eig_val.map clipEigenvalue)))

/-- Modelled from the spec: the outcome of the one blocking call to the
external conic solver.  The solver either raises, returns a non-optimal
status (infeasible, unbounded, ...) carrying no variable values, or returns
an optimal status with numeric values for `F` and `G` (`G` represented by
its linear-algebra provider data). -/
inductive SolverOutcome where
  | raises (msg : String)
  | nonOptimal (status : String) (value : ℚ)
  | optimalResult (value : ℚ) (F_value : Nat → ℚ) (G_value : GramValue)

/-- The message of the exception that `np.linalg.eig(None)` raises when
`PEP.solve` passes the unset variable values of a non-optimal problem to
`PEP.eval_points_and_function_values` (pep.py line 201). -/
def noneValueMsg : String := "TypeError: G.value is None"

/-- `PEP.solve` (pep.py lines 136-204): compile the SDP, call the external
solver exactly once on it, then reconstruct the certificate and return the
optimal value.  The third component records the solver invocations (solver
name per call); the certificate component is the final state of the value
store, empty when nothing was assigned. -/
def PEP_solve (pep : PEPState) (solver : String)
    (oracle : Compiled → String → SolverOutcome) :
    Except String ℚ × Certificate × List String :=
  match solve_compile pep with
  | .error e => (.error e, emptyCertificate, [])
  | .ok compiled =>
    match oracle compiled solver with
    | .raises msg => (.error msg, emptyCertificate, [solver])
    | .nonOptimal _ _ => (.error noneValueMsg, emptyCertificate, [solver])
    | .optimalResult value F_value G_value =>
      match eval_points_and_function_values pep F_value G_value with
      | .error e => (.error e, emptyCertificate, [solver])
      | .ok cert => (.ok value, cert, [solver])

/-- Every leaf point, leaf gradient and leaf function value known to the
problem instance carries an assigned value in the certificate. -/
def allLeavesAssigned (pep : PEPState) (c : Certificate) : Prop :=
  (∀ p ∈ pep.list_of_points, p.is_leaf = true → ∃ v, (p, v) ∈ c.point_values)
    ∧ (∀ f ∈ pep.list_of_functions, f.is_leaf = true →
        ∀ tr ∈ f.list_of_points,
          (tr.1.is_leaf = true → ∃ v, (tr.1, v) ∈ c.point_values)
            ∧ (tr.2.1.is_leaf = true → ∃ v, (tr.2.1, v) ∈ c.point_values)
            ∧ (tr.2.2.is_function_value = true → ∃ v, (tr.2.2, v) ∈ c.function_values))

/-- `np.maximum(eig_val, 0)` over an abstract eigenvalue family: the clipped
spectrum used by the certificate reconstruction (pep.py line 219).  Stated
over any linear ordered field so that the development stays executable. -/
def clippedEig {m : Type} {K : Type} [LinearOrder K] [Zero K] (lam : m → K) : m → K :=
  fun k => max (lam k) 0

/-- `(np.sqrt(eig_val) * eig_vec).T` (pep.py line 222): scale the columns of
the eigenvector matrix `V` by the provider square roots `s` of the clipped
eigenvalues, then transpose.  The matrix to be QR-factored. -/
def reconstructX {m : Type} [Fintype m] [DecidableEq m] {K : Type} [CommRing K]
    (V : Matrix m m K) (s : m → K) : Matrix m m K :=
  Matrix.transpose (V * Matrix.diagonal s)

/-! Concrete sample data used to exercise the theorems on closed inputs. -/

/-- A sample decomposition with a recurring `F` key, a point-pair key and a
constant key. -/
def sampleDecomposition : List (DecompositionKey × ℚ) :=
  [(DecompositionKey.functionValue 0, 2), (DecompositionKey.pointPair 0 1, 5),
   (DecompositionKey.constant1, 7), (DecompositionKey.functionValue 0, 3)]

/-- A sample decomposition containing a malformed key. -/
def sampleBadDecomposition : List (DecompositionKey × ℚ) :=
  [(DecompositionKey.functionValue 0, 2), (DecompositionKey.other 0, 1)]

/-- A sample recorded oracle triplet. -/
def sampleTriplet : Point × Point × Expression :=
  (Point.leaf 0, Point.leaf 1, Expression.functionValue 0)

/-- A sample declared leaf function with one recorded triplet and one class
constraint. -/
def sampleFunction : Function :=
  { is_leaf := true, counter := 0, list_of_points := [sampleTriplet],
    list_of_constraints := [],
    class_constraints := [Expression.composite [(DecompositionKey.pointPair 0 0, 1)]],
    acc_count := 0 }

/-- A sample problem instance with one function, one leaf point, one
composite point, one initial condition and one performance metric. -/
def samplePEP : PEPState :=
  { counter := 0,
    list_of_functions := [sampleFunction],
    list_of_points := [Point.leaf 0, Point.comp [(0, 2)]],
    list_of_conditions :=
      [Expression.composite
        [(DecompositionKey.pointPair 0 0, 1), (DecompositionKey.constant1, -1)]],
    list_of_performance_metrics := [Expression.functionValue 0] }

/-- The sample instance with a malformed condition Expression. -/
def sampleBadPEP : PEPState :=
  { samplePEP with list_of_conditions := [Expression.composite sampleBadDecomposition] }

/-- A sample provider result whose smallest eigenvalue is benign solver
noise in `[-10^-4, 0)`. -/
def sampleGramValue : GramValue :=
  { eig_val := [1, -1/20000],
    points_values := fun _ r c => if r = c then 1 else 0 }

/-- A sample provider result whose smallest eigenvalue is below `-10^-4`. -/
def sampleBadGramValue : GramValue :=
  { sampleGramValue with eig_val := [1, -1/1000] }

/-- A sample function-value vector. -/
def sampleFvalue : Nat → ℚ := fun _ => 3

/-- A solver oracle that reports an infeasible problem. -/
def sampleOracleNonOptimal : Compiled → String → SolverOutcome :=
  fun _ _ => SolverOutcome.nonOptimal "infeasible" 0

/-- A solver oracle that returns an optimal result with benign spectrum. -/
def sampleOracleOptimal : Compiled → String → SolverOutcome :=
  fun _ _ => SolverOutcome.optimalResult (1/4) sampleFvalue sampleGramValue

/-- A solver oracle that returns an optimal result whose Gram matrix fails
the eigenvalue check. -/
def sampleOracleBadGram : Compiled → String → SolverOutcome :=
  fun _ _ => SolverOutcome.optimalResult (1/4) sampleFvalue sampleBadGramValue

/-- The compiled form of the sample instance. -/
def sampleCompiled : Compiled :=
  { sense := ObjSense.maximize,
    constraints := spec_constraints samplePEP,
    functions := samplePEP.list_of_functions.map add_class_constraints }

/-! Helper lemmas about the flattening fold. -/

lemma foldl_flattenStep_error (d : List (DecompositionKey × ℚ)) (e : String) :
    d.foldl flattenStep (.error e) = .error e := by
  induction d with
  | nil => rfl
  | cons kw t ih => simpa [flattenStep] using ih

lemma foldl_flattenStep_ok (d : List (DecompositionKey × ℚ))
    (h : ∀ kw ∈ d, keyOk kw.1 = true) (lf : LinForm) :
    d.foldl flattenStep (.ok lf) =
      .ok { Fweights := fun i => lf.Fweights i + sumFweights d i,
            Gweights := fun a b => lf.Gweights a b + sumGweights d a b,
            cst := lf.cst + sumConst d } := by
  induction d generalizing lf with
  | nil =>
    simp only [List.foldl_nil, sumFweights, sumGweights, sumConst]
    refine congrArg Except.ok (LinForm.ext ?_ ?_ ?_)
    · funext j
      simp
    · funext a b
      simp
    · simp
  | cons kw t ih =>
    have hkw : keyOk kw.1 = true := h kw (by simp)
    have ht : ∀ kw ∈ t, keyOk kw.1 = true := fun x hx => h x (by simp [hx])
    cases hk : kw.1 with
    | functionValue i =>
      simp only [List.foldl_cons, flattenStep, hk]
      rw [ih ht]
      refine congrArg Except.ok (LinForm.ext ?_ ?_ ?_)
      · funext j
        simp only [addFweight, sumFweights, hk, DecompositionKey.functionValue.injEq]
        by_cases hji : j = i
        · subst hji
          simp [add_assoc]
        · rw [if_neg hji, if_neg (fun hij : i = j => hji hij.symm)]
          simp
      · funext a b
        simp [addFweight, sumGweights, hk]
      · simp [addFweight, sumConst, hk]
    | pointPair i j =>
      simp only [List.foldl_cons, flattenStep, hk]
      rw [ih ht]
      refine congrArg Except.ok (LinForm.ext ?_ ?_ ?_)
      · funext a
        simp [addGweight, sumFweights, hk]
      · funext a b
        simp only [addGweight, sumGweights, hk, DecompositionKey.pointPair.injEq]
        by_cases hab : a = i ∧ b = j
        · obtain ⟨ha, hb⟩ := hab
          subst ha; subst hb
          simp [add_assoc]
        · have hne : ¬(i = a ∧ j = b) := fun hcontra => hab ⟨hcontra.1.symm, hcontra.2.symm⟩
          simp [hab, hne]
      · simp [addGweight, sumConst, hk]
    | constant1 =>
      simp only [List.foldl_cons, flattenStep, hk]
      rw [ih ht]
      refine congrArg Except.ok (LinForm.ext ?_ ?_ ?_)
      · funext a
        simp [sumFweights, hk]
      · funext a b
        simp [sumGweights, hk]
      · simp [sumConst, hk, add_assoc]
    | other tag =>
      rw [hk] at hkw
      simp [keyOk] at hkw

lemma foldl_flattenStep_bad (d : List (DecompositionKey × ℚ))
    (h : ∃ kw ∈ d, keyOk kw.1 = false) (lf : LinForm) :
    d.foldl flattenStep (.ok lf) = .error typeErrorMsg := by
  induction d generalizing lf with
  | nil => simp at h
  | cons kw t ih =>
    cases hk : kw.1 with
    | functionValue i =>
      simp only [List.foldl_cons, flattenStep, hk]
      apply ih
      obtain ⟨x, hx, hbad⟩ := h
      rcases List.mem_cons.mp hx with hx1 | hx2
      · subst hx1
        rw [hk] at hbad
        simp [keyOk] at hbad
      · exact ⟨x, hx2, hbad⟩
    | pointPair i j =>
      simp only [List.foldl_cons, flattenStep, hk]
      apply ih
      obtain ⟨x, hx, hbad⟩ := h
      rcases List.mem_cons.mp hx with hx1 | hx2
      · subst hx1
        rw [hk] at hbad
        simp [keyOk] at hbad
      · exact ⟨x, hx2, hbad⟩
    | constant1 =>
      simp only [List.foldl_cons, flattenStep, hk]
      apply ih
      obtain ⟨x, hx, hbad⟩ := h
      rcases List.mem_cons.mp hx with hx1 | hx2
      · subst hx1
        rw [hk] at hbad
        simp [keyOk] at hbad
      · exact ⟨x, hx2, hbad⟩
    | other tag =>
      simp only [List.foldl_cons, flattenStep, hk]
      exact foldl_flattenStep_error t typeErrorMsg

/-- Flattening agrees with the spec-side flattened linear form on every well
formed Expression. -/
lemma expression_to_cvxpy_wf (e : Expression) (h : e.wf = true) :
    expression_to_cvxpy e = .ok (flattenTotal e) := by
  cases e with
  | functionValue c =>
    simp only [expression_to_cvxpy, flattenTotal, unitFweight, addFweight, zeroLinForm]
    refine congrArg Except.ok (LinForm.ext ?_ rfl rfl)
    funext j
    by_cases hj : j = c <;> simp [hj]
  | composite d =>
    have hall : ∀ kw ∈ d, keyOk kw.1 = true := by
      intro kw hkw
      exact List.all_eq_true.mp h kw hkw
    rw [expression_to_cvxpy, foldl_flattenStep_ok d hall zeroLinForm]
    simp [flattenTotal, flattenSpecForm, zeroLinForm]

/-- Flattening a non-well-formed Expression raises the `TypeError`. -/
lemma expression_to_cvxpy_bad (e : Expression) (h : e.wf = false) :
    expression_to_cvxpy e = .error typeErrorMsg := by
  cases e with
  | functionValue c => simp [Expression.wf] at h
  | composite d =>
    have hbad : ∃ kw ∈ d, keyOk kw.1 = false := by
      rw [Expression.wf] at h
      have hnot : ¬∀ kw ∈ d, keyOk kw.1 = true := by
        rw [← List.all_eq_true]
        simp [h]
      push_neg at hnot
      obtain ⟨x, hx, hp⟩ := hnot
      exact ⟨x, hx, by simpa using hp⟩
    exact foldl_flattenStep_bad d hbad zeroLinForm

/-- Flattening either succeeds with the spec-side form or raises the fixed
`TypeError`; no other outcome exists. -/
lemma expression_to_cvxpy_dichotomy (e : Expression) :
    expression_to_cvxpy e = .ok (flattenTotal e) ∨
      expression_to_cvxpy e = .error typeErrorMsg := by
  cases hwf : e.wf with
  | true => exact Or.inl (expression_to_cvxpy_wf e hwf)
  | false => exact Or.inr (expression_to_cvxpy_bad e hwf)

lemma wf_false_of_bad (d : List (DecompositionKey × ℚ))
    (hbad : ∃ kw ∈ d, keyOk kw.1 = false) :
    (Expression.composite d).wf = false := by
  rw [Expression.wf]
  obtain ⟨x, hx, hfalse⟩ := hbad
  cases hall : d.all (fun kw => keyOk kw.1) with
  | false => rfl
  | true => exact absurd (List.all_eq_true.mp hall x hx) (by simp [hfalse])

/-! Helper lemmas about the compilation pipeline. -/

lemma compileMetrics_ok (ms : List Expression) (h : ∀ m ∈ ms, m.wf = true) :
    ∀ acc, compileMetrics ms acc =
      .ok (acc ++ ms.map (fun m => SDPConstraint.objLe (flattenTotal m))) := by
  induction ms with
  | nil => intro acc; simp [compileMetrics]
  | cons m t ih =>
    intro acc
    have hm : m.wf = true := h m (by simp)
    have ht : ∀ x ∈ t, x.wf = true := fun x hx => h x (by simp [hx])
    simp only [compileMetrics, expression_to_cvxpy_wf m hm, ih ht]
    simp

lemma compileLe0_ok (cs : List Expression) (h : ∀ c ∈ cs, c.wf = true) :
    ∀ acc, compileLe0 cs acc =
      .ok (acc ++ cs.map (fun c => SDPConstraint.le0 (flattenTotal c))) := by
  induction cs with
  | nil => intro acc; simp [compileLe0]
  | cons c t ih =>
    intro acc
    have hc : c.wf = true := h c (by simp)
    have ht : ∀ x ∈ t, x.wf = true := fun x hx => h x (by simp [hx])
    simp only [compileLe0, expression_to_cvxpy_wf c hc, ih ht]
    simp

lemma compileFunctions_ok (fs : List Function)
    (hwf : ∀ f ∈ fs, ∀ k ∈ f.class_constraints, k.wf = true)
    (hfresh : ∀ f ∈ fs, f.list_of_constraints = []) :
    ∀ acc, compileFunctions fs acc =
      .ok (acc ++ fs.flatMap
            (fun f => f.class_constraints.map (fun k => SDPConstraint.le0 (flattenTotal k))),
           fs.map add_class_constraints) := by
  induction fs with
  | nil => intro acc; simp [compileFunctions]
  | cons f t ih =>
    intro acc
    have hf : ∀ k ∈ f.class_constraints, k.wf = true := hwf f (by simp)
    have hfe : f.list_of_constraints = [] := hfresh f (by simp)
    have h1 : ∀ x ∈ t, ∀ k ∈ x.class_constraints, k.wf = true :=
      fun x hx => hwf x (by simp [hx])
    have h2 : ∀ x ∈ t, x.list_of_constraints = [] := fun x hx => hfresh x (by simp [hx])
    have hconstraints : (add_class_constraints f).list_of_constraints = f.class_constraints := by
      simp [add_class_constraints, hfe]
    simp only [compileFunctions, hconstraints, compileLe0_ok _ hf, ih h1 h2]
    simp

lemma solve_compile_ok (pep : PEPState) (hwf : pep.wf = true)
    (hfresh : ∀ f ∈ pep.list_of_functions, f.list_of_constraints = []) :
    solve_compile pep =
      .ok { sense := ObjSense.maximize,
            constraints := spec_constraints pep,
            functions := pep.list_of_functions.map add_class_constraints } := by
  have hw := hwf
  rw [PEPState.wf, Bool.and_eq_true, Bool.and_eq_true] at hw
  obtain ⟨⟨h1, h2⟩, h3⟩ := hw
  have hm : ∀ m ∈ pep.list_of_performance_metrics, m.wf = true :=
    fun m hm => List.all_eq_true.mp h1 m hm
  have hc : ∀ c ∈ pep.list_of_conditions, c.wf = true :=
    fun c hc => List.all_eq_true.mp h2 c hc
  have hk : ∀ f ∈ pep.list_of_functions, ∀ k ∈ f.class_constraints, k.wf = true :=
    fun f hf k hkc => List.all_eq_true.mp (List.all_eq_true.mp h3 f hf) k hkc
  simp only [solve_compile, compileMetrics_ok _ hm, compileLe0_ok _ hc,
    compileFunctions_ok _ hk hfresh]
  simp [spec_constraints]

lemma compileMetrics_bad (ms : List Expression) (e : Expression) (he : e ∈ ms)
    (hbad : e.wf = false) :
    ∀ acc, compileMetrics ms acc = .error typeErrorMsg := by
  induction ms with
  | nil => simp at he
  | cons m t ih =>
    intro acc
    rcases List.mem_cons.mp he with he1 | he2
    · subst he1
      simp [compileMetrics, expression_to_cvxpy_bad e hbad]
    · rcases expression_to_cvxpy_dichotomy m with hok | herr
      · simp only [compileMetrics, hok]
        exact ih he2 _
      · simp [compileMetrics, herr]

lemma compileLe0_bad (cs : List Expression) (e : Expression) (he : e ∈ cs)
    (hbad : e.wf = false) :
    ∀ acc, compileLe0 cs acc = .error typeErrorMsg := by
  induction cs with
  | nil => simp at he
  | cons c t ih =>
    intro acc
    rcases List.mem_cons.mp he with he1 | he2
    · subst he1
      simp [compileLe0, expression_to_cvxpy_bad e hbad]
    · rcases expression_to_cvxpy_dichotomy c with hok | herr
      · simp only [compileLe0, hok]
        exact ih he2 _
      · simp [compileLe0, herr]

lemma compileLe0_dichotomy (cs : List Expression) (acc : List SDPConstraint) :
    (∃ out, compileLe0 cs acc = .ok out) ∨ compileLe0 cs acc = .error typeErrorMsg := by
  induction cs generalizing acc with
  | nil => exact Or.inl ⟨acc, rfl⟩
  | cons c t ih =>
    rcases expression_to_cvxpy_dichotomy c with hok | herr
    · simp only [compileLe0, hok]
      exact ih _
    · simp [compileLe0, herr]

lemma compileMetrics_dichotomy (ms : List Expression) (acc : List SDPConstraint) :
    (∃ out, compileMetrics ms acc = .ok out) ∨ compileMetrics ms acc = .error typeErrorMsg := by
  induction ms generalizing acc with
  | nil => exact Or.inl ⟨acc, rfl⟩
  | cons m t ih =>
    rcases expression_to_cvxpy_dichotomy m with hok | herr
    · simp only [compileMetrics, hok]
      exact ih _
    · simp [compileMetrics, herr]

lemma compileFunctions_bad (fs : List Function) (e : Expression)
    (he : ∃ f ∈ fs, e ∈ (add_class_constraints f).list_of_constraints)
    (hbad : e.wf = false) :
    ∀ acc, compileFunctions fs acc = .error typeErrorMsg := by
  induction fs with
  | nil => simp at he
  | cons f t ih =>
    intro acc
    obtain ⟨g, hg, hmem⟩ := he
    rcases List.mem_cons.mp hg with hg1 | hg2
    · subst hg1
      simp only [compileFunctions, compileLe0_bad _ e hmem hbad]
    · rcases compileLe0_dichotomy (add_class_constraints f).list_of_constraints acc with
        ⟨out, hok⟩ | herr
      · simp only [compileFunctions, hok, ih ⟨g, hg2, hmem⟩]
      · simp only [compileFunctions, herr]

lemma solve_compile_bad (pep : PEPState) (e : Expression) (hbad : e.wf = false)
    (huse : e ∈ pep.list_of_performance_metrics
      ∨ e ∈ pep.list_of_conditions
      ∨ ∃ f ∈ pep.list_of_functions, e ∈ (add_class_constraints f).list_of_constraints) :
    solve_compile pep = .error typeErrorMsg := by
  rcases huse with hm | hc | hf
  · simp only [solve_compile, compileMetrics_bad _ e hm hbad]
  · rcases compileMetrics_dichotomy pep.list_of_performance_metrics [] with ⟨c1, h1⟩ | h1
    · simp only [solve_compile, h1, compileLe0_bad _ e hc hbad]
    · simp only [solve_compile, h1]
  · rcases compileMetrics_dichotomy pep.list_of_performance_metrics [] with ⟨c1, h1⟩ | h1
    · rcases compileLe0_dichotomy pep.list_of_conditions c1 with ⟨c2, h2⟩ | h2
      · simp only [solve_compile, h1, h2, compileFunctions_bad _ e hf hbad]
      · simp only [solve_compile, h1, h2]
    · simp only [solve_compile, h1]

/-! Helper lemmas about minting, evaluation and the certificate. -/

lemma mintPoints_points (n : Nat) (pep : PEPState) (g : Counters) :
    (mintPoints n (pep, g)).1.list_of_points
      = pep.list_of_points ++ (List.range' g.point n).map Point.leaf := by
  induction n generalizing pep g with
  | zero => simp [mintPoints]
  | succ k ih =>
    simp only [mintPoints, set_initial_point]
    rw [ih]
    simp [List.range'_succ]

lemma eval_ok_inv (pep : PEPState) (F_value : Nat → ℚ) (G_value : GramValue)
    (c : Certificate)
    (h : eval_points_and_function_values pep F_value G_value = .ok c) :
    c = buildCertificate pep F_value
      (G_value.points_values (G_value.eig_val.map clipEigenvalue)) := by
  cases hmin : np_min G_value.eig_val with
  | none =>
    simp only [eval_points_and_function_values, hmin] at h
    exact absurd h (by simp)
  | some m =>
    simp only [eval_points_and_function_values, hmin] at h
    by_cases hlt : m < -assertTolerance
    · rw [if_pos hlt] at h
      exact absurd h (by simp)
    · rw [if_neg hlt] at h
      injection h with h
      exact h.symm

lemma buildCertificate_mem_point (pep : PEPState) (F_value : Nat → ℚ)
    (pv : Nat → Nat → ℚ) (p : Point) (hp : p ∈ pep.list_of_points)
    (hleaf : p.is_leaf = true) :
    (p, column pv p.counter) ∈ (buildCertificate pep F_value pv).point_values := by
  refine List.mem_append_left _ (List.mem_map.mpr ⟨p, ?_, rfl⟩)
  exact List.mem_filter.mpr ⟨hp, by simp [hleaf]⟩

lemma buildCertificate_mem_triplet (pep : PEPState) (F_value : Nat → ℚ)
    (pv : Nat → Nat → ℚ) (f : Function) (hf : f ∈ pep.list_of_functions)
    (hfl : f.is_leaf = true) (tr : Point × Point × Expression)
    (htr : tr ∈ f.list_of_points) :
    (tr.1.is_leaf = true →
        (tr.1, column pv tr.1.counter) ∈ (buildCertificate pep F_value pv).point_values)
      ∧ (tr.2.1.is_leaf = true →
        (tr.2.1, column pv tr.2.1.counter) ∈ (buildCertificate pep F_value pv).point_values)
      ∧ (tr.2.2.is_function_value = true →
        (tr.2.2, F_value tr.2.2.counter) ∈ (buildCertificate pep F_value pv).function_values) := by
  refine ⟨fun h1 => ?_, fun h2 => ?_, fun h3 => ?_⟩
  · refine List.mem_append_right _ (List.mem_flatMap.mpr ⟨f, hf, ?_⟩)
    rw [if_pos hfl]
    refine List.mem_flatMap.mpr ⟨tr, htr, ?_⟩
    simp [pointAssignmentsOfTriplet, h1]
  · refine List.mem_append_right _ (List.mem_flatMap.mpr ⟨f, hf, ?_⟩)
    rw [if_pos hfl]
    refine List.mem_flatMap.mpr ⟨tr, htr, ?_⟩
    simp [pointAssignmentsOfTriplet, h2]
  · refine List.mem_flatMap.mpr ⟨f, hf, ?_⟩
    rw [if_pos hfl]
    refine List.mem_flatMap.mpr ⟨tr, htr, ?_⟩
    simp [valueAssignmentsOfTriplet, h3]

lemma buildCertificate_complete (pep : PEPState) (F_value : Nat → ℚ)
    (pv : Nat → Nat → ℚ) :
    allLeavesAssigned pep (buildCertificate pep F_value pv) := by
  constructor
  · intro p hp hleaf
    exact ⟨column pv p.counter, buildCertificate_mem_point pep F_value pv p hp hleaf⟩
  · intro f hf hfl tr htr
    obtain ⟨ha, hb, hc⟩ := buildCertificate_mem_triplet pep F_value pv f hf hfl tr htr
    exact ⟨fun h1 => ⟨_, ha h1⟩, fun h2 => ⟨_, hb h2⟩, fun h3 => ⟨_, hc h3⟩⟩

lemma buildCertificate_sound_point (pep : PEPState) (F_value : Nat → ℚ)
    (pv : Nat → Nat → ℚ) (pr : Point × (Nat → ℚ))
    (hpr : pr ∈ (buildCertificate pep F_value pv).point_values) :
    pr.1.is_leaf = true ∧ pr.2 = column pv pr.1.counter
      ∧ (pr.1 ∈ pep.list_of_points
          ∨ ∃ f ∈ pep.list_of_functions, ∃ tr ∈ f.list_of_points,
              pr.1 = tr.1 ∨ pr.1 = tr.2.1) := by
  rcases List.mem_append.mp hpr with hl | hr
  · obtain ⟨p, hpf, heq⟩ := List.mem_map.mp hl
    obtain ⟨hp, hleaf⟩ := List.mem_filter.mp hpf
    subst heq
    exact ⟨by simpa using hleaf, rfl, Or.inl hp⟩
  · obtain ⟨f, hf, hmem⟩ := List.mem_flatMap.mp hr
    by_cases hfl : f.is_leaf = true
    · rw [if_pos hfl] at hmem
      obtain ⟨tr, htr, hmem2⟩ := List.mem_flatMap.mp hmem
      rcases List.mem_append.mp hmem2 with h1 | h2
      · by_cases ht1 : tr.1.is_leaf = true
        · rw [if_pos ht1] at h1
          rcases List.mem_singleton.mp h1 with rfl
          exact ⟨ht1, rfl, Or.inr ⟨f, hf, tr, htr, Or.inl rfl⟩⟩
        · rw [if_neg ht1] at h1
          exact absurd h1 (List.not_mem_nil _)
      · by_cases ht2 : tr.2.1.is_leaf = true
        · rw [if_pos ht2] at h2
          rcases List.mem_singleton.mp h2 with rfl
          exact ⟨ht2, rfl, Or.inr ⟨f, hf, tr, htr, Or.inr rfl⟩⟩
        · rw [if_neg ht2] at h2
          exact absurd h2 (List.not_mem_nil _)
    · rw [if_neg hfl] at hmem
      exact absurd hmem (List.not_mem_nil _)

lemma buildCertificate_sound_value (pep : PEPState) (F_value : Nat → ℚ)
    (pv : Nat → Nat → ℚ) (fv : Expression × ℚ)
    (hfv : fv ∈ (buildCertificate pep F_value pv).function_values) :
    fv.1.is_function_value = true ∧ fv.2 = F_value fv.1.counter
      ∧ ∃ f ∈ pep.list_of_functions, ∃ tr ∈ f.list_of_points, fv.1 = tr.2.2 := by
  obtain ⟨f, hf, hmem⟩ := List.mem_flatMap.mp hfv
  by_cases hfl : f.is_leaf = true
  · rw [if_pos hfl] at hmem
    obtain ⟨tr, htr, hmem2⟩ := List.mem_flatMap.mp hmem
    by_cases hval : tr.2.2.is_function_value = true
    · rw [valueAssignmentsOfTriplet, if_pos hval] at hmem2
      rcases List.mem_singleton.mp hmem2 with rfl
      exact ⟨hval, rfl, f, hf, tr, htr, rfl⟩
    · rw [valueAssignmentsOfTriplet, if_neg hval] at hmem2
      exact absurd hmem2 (List.not_mem_nil _)
  · rw [if_neg hfl] at hmem
    exact absurd hmem (List.not_mem_nil _)

lemma np_min_eq_none (l : List ℚ) (h : np_min l = none) : l = [] := by
  cases l with
  | nil => rfl
  | cons x t =>
    rw [np_min] at h
    cases ht : np_min t with
    | none => rw [ht] at h; simp at h
    | some m => rw [ht] at h; simp at h

lemma np_min_mem (l : List ℚ) (m : ℚ) (h : np_min l = some m) : m ∈ l := by
  induction l generalizing m with
  | nil => simp [np_min] at h
  | cons x t ih =>
    rw [np_min] at h
    cases ht : np_min t with
    | none =>
      rw [ht] at h
      injection h with h
      simp [h.symm]
    | some m2 =>
      rw [ht] at h
      injection h with h
      rcases min_choice x m2 with hx | hx
      · simp [← h, hx]
      · have := ih m2 ht
        simp only [← h, hx]
        exact List.mem_cons_of_mem x this

lemma np_min_le (l : List ℚ) (m : ℚ) (h : np_min l = some m) :
    ∀ x ∈ l, m ≤ x := by
  induction l generalizing m with
  | nil => simp [np_min] at h
  | cons x t ih =>
    intro y hy
    rw [np_min] at h
    cases ht : np_min t with
    | none =>
      rw [ht] at h
      injection h with h
      have ht2 : t = [] := np_min_eq_none t ht
      subst ht2
      have hyx : y = x := by simpa using hy
      rw [hyx, ← h]
    | some m2 =>
      rw [ht] at h
      injection h with h
      rcases List.mem_cons.mp hy with rfl | hyt
      · rw [← h]
        exact min_le_left _ _
      · exact le_trans (h ▸ min_le_right x m2) (ih m2 ht y hyt)

lemma eval_ok_of_check (pep : PEPState) (F_value : Nat → ℚ) (G_value : GramValue)
    (m : ℚ) (hmin : np_min G_value.eig_val = some m) (hge : ¬m < -assertTolerance) :
    eval_points_and_function_values pep F_value G_value =
      .ok (buildCertificate pep F_value
        (G_value.points_values (G_value.eig_val.map clipEigenvalue))) := by
  simp only [eval_points_and_function_values, hmin, if_neg hge]

lemma eval_error_of_check (pep : PEPState) (F_value : Nat → ℚ) (G_value : GramValue)
    (m : ℚ) (hmin : np_min G_value.eig_val = some m) (hlt : m < -assertTolerance) :
    eval_points_and_function_values pep F_value G_value = .error assertErrorMsg := by
  simp only [eval_points_and_function_values, hmin, if_pos hlt]

/-! The claims. -/

/-- C1: for every problem instance whose declared functions hold no
constraints before compilation, `solve` compiles the SDP exactly as:
maximize the scalar objective subject to `objective ≤ flatten(m)` for every
performance metric `m`, `flatten(c) ≤ 0` for every initial condition `c`,
and `flatten(k) ≤ 0` for every constraint `k` produced by invoking each
`add_class_constraints` of each declared function once during compilation. -/
theorem solve_compiles_spec_sdp (pep : PEPState) (hwf : pep.wf = true)
    (hfresh : ∀ f ∈ pep.list_of_functions, f.list_of_constraints = []) :
    solve_compile pep =
        .ok { sense := ObjSense.maximize,
              constraints := spec_constraints pep,
              functions := pep.list_of_functions.map add_class_constraints }
      ∧ ∀ f ∈ pep.list_of_functions,
          (add_class_constraints f).acc_count = f.acc_count + 1
            ∧ (add_class_constraints f).list_of_constraints = f.class_constraints := by
  refine ⟨solve_compile_ok pep hwf hfresh, fun f hf => ⟨rfl, ?_⟩⟩
  simp [add_class_constraints, hfresh f hf]

/-- Witness for C1 on the concrete sample instance. -/
theorem solve_compiles_spec_sdp_witness :
    solve_compile samplePEP =
        .ok { sense := ObjSense.maximize,
              constraints := spec_constraints samplePEP,
              functions := samplePEP.list_of_functions.map add_class_constraints }
      ∧ ∀ f ∈ samplePEP.list_of_functions,
          (add_class_constraints f).acc_count = f.acc_count + 1
            ∧ (add_class_constraints f).list_of_constraints = f.class_constraints :=
  solve_compiles_spec_sdp samplePEP (by decide) (by decide)

/-- C2: for every well-formed Expression, `expression_to_cvxpy` produces
exactly the spec-side flattened linear form: a leaf function value flattens
to unit weight on its own `F` index, and a composite distributes every
decomposition entry by key kind onto the `F` vector, the `G` matrix or the
scalar constant, accumulating recurring cells by summation (`flattenTotal`
is built from the accumulators `sumFweights`, `sumGweights`, `sumConst`). -/
theorem expression_to_cvxpy_flattens (e : Expression) (h : e.wf = true) :
    expression_to_cvxpy e = .ok (flattenTotal e) :=
  expression_to_cvxpy_wf e h

/-- Witness for C2: a composite whose recurring `F` key accumulates
`2 + 3 = 5`, and a leaf function value with unit weight at its own index. -/
theorem expression_to_cvxpy_flattens_witness :
    Expression.wf (.composite sampleDecomposition) = true
      ∧ expression_to_cvxpy (.composite sampleDecomposition)
          = .ok (flattenTotal (.composite sampleDecomposition))
      ∧ (flattenTotal (.composite sampleDecomposition)).Fweights 0 = 5
      ∧ (flattenTotal (.composite sampleDecomposition)).Gweights 0 1 = 5
      ∧ (flattenTotal (.composite sampleDecomposition)).cst = 7
      ∧ expression_to_cvxpy (.functionValue 3) = .ok (flattenTotal (.functionValue 3))
      ∧ (flattenTotal (.functionValue 3)).Fweights 3 = 1 :=
  ⟨by decide, expression_to_cvxpy_flattens _ (by decide),
    by simp [flattenTotal, flattenSpecForm, sumFweights, sampleDecomposition]
       norm_num,
    by simp [flattenTotal, flattenSpecForm, sumGweights, sampleDecomposition],
    by simp [flattenTotal, flattenSpecForm, sumConst, sampleDecomposition],
    expression_to_cvxpy_flattens _ (by decide),
    by simp [flattenTotal, unitFweight]⟩

/-- C3: certificate reconstruction fails hard (the assertion) exactly when
the minimum eigenvalue of the solver-returned Gram matrix is below
`-10^-4`; otherwise eigenvalues in `[-10^-4, 0)` are silently clipped to
zero (the provider is handed the clipped spectrum) and reconstruction
proceeds to a successful result. -/
theorem gram_eigenvalue_check (pep : PEPState) (F_value : Nat → ℚ)
    (G_value : GramValue) (m : ℚ) (hmin : np_min G_value.eig_val = some m) :
    (eval_points_and_function_values pep F_value G_value = .error assertErrorMsg
        ↔ ∃ x ∈ G_value.eig_val, x < -assertTolerance)
      ∧ (¬(∃ x ∈ G_value.eig_val, x < -assertTolerance) →
          eval_points_and_function_values pep F_value G_value =
              .ok (buildCertificate pep F_value
                (G_value.points_values (G_value.eig_val.map clipEigenvalue)))
            ∧ ∀ x ∈ G_value.eig_val, x < 0 → clipEigenvalue x = 0) := by
  have hmem := np_min_mem _ _ hmin
  have hle := np_min_le _ _ hmin
  constructor
  · constructor
    · intro herr
      by_cases hlt : m < -assertTolerance
      · exact ⟨m, hmem, hlt⟩
      · simp only [eval_points_and_function_values, hmin, if_neg hlt] at herr
        exact absurd herr (by simp)
    · rintro ⟨x, hx, hxlt⟩
      have hlt : m < -assertTolerance := lt_of_le_of_lt (hle x hx) hxlt
      simp only [eval_points_and_function_values, hmin, if_pos hlt]
  · intro hno
    have hlt : ¬m < -assertTolerance := fun hlt => hno ⟨m, hmem, hlt⟩
    refine ⟨?_, ?_⟩
    · simp only [eval_points_and_function_values, hmin, if_neg hlt]
    · intro x hx hx0
      simp [clipEigenvalue, max_eq_right (le_of_lt hx0)]

/-- Witness for C3 on a spectrum whose smallest eigenvalue `-1/20000` is
benign noise: the check passes, the value is clipped to zero, and
reconstruction proceeds. -/
theorem gram_eigenvalue_check_witness :
    np_min sampleGramValue.eig_val = some (min 1 (-1/20000))
      ∧ eval_points_and_function_values samplePEP sampleFvalue sampleGramValue =
          .ok (buildCertificate samplePEP sampleFvalue
            (sampleGramValue.points_values (sampleGramValue.eig_val.map clipEigenvalue)))
      ∧ clipEigenvalue (-1/20000) = 0 := by
  have hmin : np_min sampleGramValue.eig_val = some (min 1 (-1/20000)) := rfl
  have h := gram_eigenvalue_check samplePEP sampleFvalue sampleGramValue _ hmin
  have hno : ¬∃ x ∈ sampleGramValue.eig_val, x < -assertTolerance := by
    rintro ⟨x, hx, hlt⟩
    simp only [sampleGramValue, List.mem_cons, List.not_mem_nil, or_false] at hx
    rcases hx with rfl | rfl
    · norm_num [assertTolerance] at hlt
    · norm_num [assertTolerance] at hlt
  exact ⟨hmin, (h.2 hno).1,
    (h.2 hno).2 (-1/20000) (by simp [sampleGramValue]) (by norm_num)⟩

/-- C5: every Expression whose decomposition contains a key that is not one
of the three recognized kinds (leaf function value, point pair, the
constant symbol) makes flattening raise the `TypeError`, and compilation of
any problem instance using that Expression fails with the same fatal
compile-time error. -/
theorem malformed_key_raises (d : List (DecompositionKey × ℚ))
    (hbad : ∃ kw ∈ d, keyOk kw.1 = false) (pep : PEPState)
    (huse : Expression.composite d ∈ pep.list_of_performance_metrics
      ∨ Expression.composite d ∈ pep.list_of_conditions
      ∨ ∃ f ∈ pep.list_of_functions,
          Expression.composite d ∈ (add_class_constraints f).list_of_constraints) :
    expression_to_cvxpy (.composite d) = .error typeErrorMsg
      ∧ solve_compile pep = .error typeErrorMsg := by
  have hwfF : (Expression.composite d).wf = false := wf_false_of_bad d hbad
  exact ⟨expression_to_cvxpy_bad _ hwfF, solve_compile_bad pep _ hwfF huse⟩

/-- Witness for C5 on a sample instance whose initial condition holds a
malformed key. -/
theorem malformed_key_raises_witness :
    expression_to_cvxpy (.composite sampleBadDecomposition) = .error typeErrorMsg
      ∧ solve_compile sampleBadPEP = .error typeErrorMsg :=
  malformed_key_raises sampleBadDecomposition (by decide) sampleBadPEP
    (Or.inr (Or.inl (by decide)))

/-- C6: constructing a new problem instance resets the Point, Expression
and Function counters to zero, so the leaf indices minted by an instance
start from zero and are the same regardless of how many leaves any prior
instance minted: no instance continues the index space of another. -/
theorem pep_init_resets_counters (g : Counters) (n : Nat) :
    (PEP_init g).2.point = 0 ∧ (PEP_init g).2.expr = 0 ∧ (PEP_init g).2.func = 0
      ∧ (mintPoints n (PEP_init g)).1.list_of_points = (List.range n).map Point.leaf := by
  refine ⟨rfl, rfl, rfl, ?_⟩
  have h2 : mintPoints n (PEP_init g) = mintPoints n ((PEP_init g).1, (PEP_init g).2) := rfl
  rw [h2, mintPoints_points]
  simp [PEP_init, List.range_eq_range']

/-- C7: when the external solver returns a non-optimal status or raises,
`solve` surfaces the failure to the caller as a failed solve, and the core
calls the solver exactly once with the requested solver: no automatic retry
and no fallback solver. -/
theorem solver_failure_surfaced (pep : PEPState) (solver : String)
    (oracle : Compiled → String → SolverOutcome) (compiled : Compiled)
    (hc : solve_compile pep = .ok compiled) :
    (∀ status value, oracle compiled solver = .nonOptimal status value →
        (PEP_solve pep solver oracle).1 = .error noneValueMsg)
      ∧ (∀ msg, oracle compiled solver = .raises msg →
          (PEP_solve pep solver oracle).1 = .error msg)
      ∧ (PEP_solve pep solver oracle).2.2 = [solver] := by
  refine ⟨?_, ?_, ?_⟩
  · intro status value hno
    simp only [PEP_solve, hc, hno]
  · intro msg hmsg
    simp only [PEP_solve, hc, hmsg]
  · cases ho : oracle compiled solver with
    | raises msg => simp [PEP_solve, hc, ho]
    | nonOptimal st v => simp [PEP_solve, hc, ho]
    | optimalResult v Fv Gv =>
      cases he : eval_points_and_function_values pep Fv Gv with
      | error e3 => simp [PEP_solve, hc, ho, he]
      | ok cert => simp [PEP_solve, hc, ho, he]

/-- Witness for C7: an infeasible solver outcome on the sample instance is
surfaced as an error and the invocation log holds exactly one call. -/
theorem solver_failure_surfaced_witness :
    (PEP_solve samplePEP "SCS" sampleOracleNonOptimal).1 = .error noneValueMsg
      ∧ (PEP_solve samplePEP "SCS" sampleOracleNonOptimal).2.2 = ["SCS"] := by
  have hc : solve_compile samplePEP = .ok sampleCompiled :=
    solve_compile_ok samplePEP (by decide) (by decide)
  have h := solver_failure_surfaced samplePEP "SCS" sampleOracleNonOptimal sampleCompiled hc
  exact ⟨h.1 "infeasible" 0 rfl, h.2.2⟩

/-- C8: certificate production is all-or-none: when `solve` fails at any
stage (compilation, solver call, the Gram eigenvalue check), the value
store stays empty; on success every leaf point, gradient and function value
known to the instance carries an assigned value. -/
theorem certificate_all_or_none (pep : PEPState) (solver : String)
    (oracle : Compiled → String → SolverOutcome) :
    (∀ e, (PEP_solve pep solver oracle).1 = .error e →
        (PEP_solve pep solver oracle).2.1 = emptyCertificate)
      ∧ (∀ v, (PEP_solve pep solver oracle).1 = .ok v →
          allLeavesAssigned pep (PEP_solve pep solver oracle).2.1) := by
  constructor

  · intro e herr
    cases hc : solve_compile pep with
    | error e2 => simp [PEP_solve, hc]
    | ok compiled =>
      cases ho : oracle compiled solver with
      | raises msg => simp [PEP_solve, hc, ho]
      | nonOptimal st v => simp [PEP_solve, hc, ho]
      | optimalResult v Fv Gv =>
        cases he : eval_points_and_function_values pep Fv Gv with
        | error e3 => simp [PEP_solve, hc, ho, he]
        | ok cert =>
          simp only [PEP_solve, hc, ho, he] at herr
          exact absurd herr (by simp)
  · intro v hok
    cases hc : solve_compile pep with
    | error e2 =>
      simp only [PEP_solve, hc] at hok
      exact absurd hok (by simp)
    | ok compiled =>
      cases ho : oracle compiled solver with
      | raises msg =>
        simp only [PEP_solve, hc, ho] at hok
        exact absurd hok (by simp)
      | nonOptimal st v2 =>
        simp only [PEP_solve, hc, ho] at hok
        exact absurd hok (by simp)
      | optimalResult v2 Fv Gv =>
        cases he : eval_points_and_function_values pep Fv Gv with
        | error e3 =>
          simp only [PEP_solve, hc, ho, he] at hok
          exact absurd hok (by simp)
        | ok cert =>
          simp only [PEP_solve, hc, ho, he]
          rw [eval_ok_inv pep Fv Gv cert he]
          exact buildCertificate_complete pep Fv _

/-- Witness for C8: a failing run leaves the store empty and a successful
run assigns every leaf of the sample instance. -/
theorem certificate_all_or_none_witness :
    (PEP_solve samplePEP "SCS" sampleOracleBadGram).2.1 = emptyCertificate
      ∧ allLeavesAssigned samplePEP (PEP_solve samplePEP "SCS" sampleOracleOptimal).2.1 := by
  have hc : solve_compile samplePEP = .ok sampleCompiled :=
    solve_compile_ok samplePEP (by decide) (by decide)
  constructor
  · have hminb : np_min sampleBadGramValue.eig_val = some (min 1 (-1/1000)) := rfl
    have hlt : min 1 (-1/1000) < -assertTolerance := by
      norm_num [min_def, assertTolerance]
    have herr := eval_error_of_check samplePEP sampleFvalue sampleBadGramValue _ hminb hlt
    have h1 : (PEP_solve samplePEP "SCS" sampleOracleBadGram).1 = .error assertErrorMsg := by
      simp only [PEP_solve, hc, sampleOracleBadGram, herr]
    exact (certificate_all_or_none samplePEP "SCS" sampleOracleBadGram).1 assertErrorMsg h1
  · have hmin : np_min sampleGramValue.eig_val = some (min 1 (-1/20000)) := rfl
    have hge : ¬min 1 (-1/20000) < -assertTolerance := by
      norm_num [min_def, assertTolerance]
    have hok := eval_ok_of_check samplePEP sampleFvalue sampleGramValue _ hmin hge
    have h1 : (PEP_solve samplePEP "SCS" sampleOracleOptimal).1 = .ok (1/4) := by
      simp only [PEP_solve, hc, sampleOracleOptimal, hok]
    exact (certificate_all_or_none samplePEP "SCS" sampleOracleOptimal).2 (1/4) h1

/-- C9: on success, reconstruction assigns its `points_values` column to
every leaf Point of the instance and to every leaf point/gradient of each
recorded triplets of each leaf function, assigns `F_value[counter]` to every leaf
function value of those triplets, and assigns nothing else: every entry of
the value store is a leaf originating from those lists with exactly that
value, so composite Points and Expressions stay unassigned. -/
theorem reconstruction_assigns_leaves (pep : PEPState) (F_value : Nat → ℚ)
    (G_value : GramValue) (pv : Nat → Nat → ℚ) (c : Certificate)
    (hpv : pv = G_value.points_values (G_value.eig_val.map clipEigenvalue))
    (h : eval_points_and_function_values pep F_value G_value = .ok c) :
    (∀ p ∈ pep.list_of_points, p.is_leaf = true →
        (p, column pv p.counter) ∈ c.point_values)
      ∧ (∀ f ∈ pep.list_of_functions, f.is_leaf = true → ∀ tr ∈ f.list_of_points,
          (tr.1.is_leaf = true → (tr.1, column pv tr.1.counter) ∈ c.point_values)
            ∧ (tr.2.1.is_leaf = true →
                (tr.2.1, column pv tr.2.1.counter) ∈ c.point_values)
            ∧ (tr.2.2.is_function_value = true →
                (tr.2.2, F_value tr.2.2.counter) ∈ c.function_values))
      ∧ (∀ pr ∈ c.point_values, pr.1.is_leaf = true
            ∧ pr.2 = column pv pr.1.counter
            ∧ (pr.1 ∈ pep.list_of_points
                ∨ ∃ f ∈ pep.list_of_functions, ∃ tr ∈ f.list_of_points,
                    pr.1 = tr.1 ∨ pr.1 = tr.2.1))
      ∧ (∀ fv ∈ c.function_values, fv.1.is_function_value = true
            ∧ fv.2 = F_value fv.1.counter
            ∧ ∃ f ∈ pep.list_of_functions, ∃ tr ∈ f.list_of_points, fv.1 = tr.2.2) := by
  subst hpv
  have hc := eval_ok_inv pep F_value G_value c h
  subst hc
  refine ⟨?_, ?_, ?_, ?_⟩
  · exact fun p hp hl => buildCertificate_mem_point pep F_value _ p hp hl
  · exact fun f hf hfl tr htr => buildCertificate_mem_triplet pep F_value _ f hf hfl tr htr
  · exact fun pr hpr => buildCertificate_sound_point pep F_value _ pr hpr
  · exact fun fv hfv => buildCertificate_sound_value pep F_value _ fv hfv

/-- Witness for C9: after a successful reconstruction on the sample
instance, the initial leaf point holds its coordinate column. -/
theorem reconstruction_assigns_leaves_witness :
    (Point.leaf 0,
        column (sampleGramValue.points_values
          (sampleGramValue.eig_val.map clipEigenvalue)) 0)
      ∈ (buildCertificate samplePEP sampleFvalue
          (sampleGramValue.points_values
            (sampleGramValue.eig_val.map clipEigenvalue))).point_values := by
  have hmin : np_min sampleGramValue.eig_val = some (min 1 (-1/20000)) := rfl
  have hge : ¬min 1 (-1/20000) < -assertTolerance := by
    norm_num [min_def, assertTolerance]
  have hok := eval_ok_of_check samplePEP sampleFvalue sampleGramValue _ hmin hge
  have h := reconstruction_assigns_leaves samplePEP sampleFvalue sampleGramValue
    (sampleGramValue.points_values (sampleGramValue.eig_val.map clipEigenvalue))
    (buildCertificate samplePEP sampleFvalue
      (sampleGramValue.points_values (sampleGramValue.eig_val.map clipEigenvalue)))
    rfl hok
  exact h.1 (Point.leaf 0) (by simp [samplePEP]) rfl

/-- C10: a point-pair key `(c1, c2)` of a composite decomposition
contributes its weight to exactly the Gram cell `(c1, c2)` — `sumGweights`
counts only the entries whose key is that exact ordered pair — and never to
the transposed cell, so the produced weight matrix is in general not
symmetric, as the concrete single-pair decomposition shows. -/
theorem gram_weights_not_mirrored (d : List (DecompositionKey × ℚ))
    (h : (Expression.composite d).wf = true) (a b : Nat) :
    (∃ lf, expression_to_cvxpy (.composite d) = .ok lf
        ∧ lf.Gweights a b = sumGweights d a b)
      ∧ (∃ lf, expression_to_cvxpy
            (.composite [(DecompositionKey.pointPair 0 1, 37)]) = .ok lf
          ∧ lf.Gweights 0 1 = 37 ∧ lf.Gweights 1 0 = 0) := by
  constructor
  · exact ⟨flattenTotal (.composite d), expression_to_cvxpy_wf _ h, rfl⟩
  · exact ⟨flattenTotal (.composite [(DecompositionKey.pointPair 0 1, 37)]),
      expression_to_cvxpy_wf _ (by decide),
      by simp [flattenTotal, flattenSpecForm, sumGweights],
      by simp [flattenTotal, flattenSpecForm, sumGweights]⟩

/-- Witness for C10 on the sample decomposition at the cell `(0, 1)` and
its mirror. -/
theorem gram_weights_not_mirrored_witness :
    ((∃ lf, expression_to_cvxpy (.composite sampleDecomposition) = .ok lf
        ∧ lf.Gweights 0 1 = sumGweights sampleDecomposition 0 1)
      ∧ (∃ lf, expression_to_cvxpy
            (.composite [(DecompositionKey.pointPair 0 1, 37)]) = .ok lf
          ∧ lf.Gweights 0 1 = 37 ∧ lf.Gweights 1 0 = 0))
      ∧ sumGweights sampleDecomposition 0 1 = 5
      ∧ sumGweights sampleDecomposition 1 0 = 0 :=
  ⟨gram_weights_not_mirrored sampleDecomposition (by decide) 0 1,
    by simp [sumGweights, sampleDecomposition],
    by simp [sumGweights, sampleDecomposition]⟩

/-- C4: round-trip certificate.  Let the provider eigendecompose the
solver-returned Gram matrix as `G = V diag(lam) Vᵀ` with `V` orthogonal,
let `s` be the square roots of the eigenvalues clipped at zero, and let the
provider QR-factor `reconstructX V s = (V diag(s))ᵀ` as `Q * R` with `Q`
orthogonal.  If every eigenvalue is at least `-eps` for a solver tolerance
`eps ≥ 0` (e.g. `eps = 1/1000000`), then for every pair of leaf indices
`i, j` the inner product of the reconstructed coordinate columns `i` and
`j` of `R` equals `G i j` within `eps`. -/
theorem reconstruction_roundtrip {n : Type} [Fintype n] [DecidableEq n] {K : Type}
    [LinearOrderedField K]
    (G V Q R : Matrix n n K) (lam s : n → K) (eps : K)
    (hV : V * Matrix.transpose V = 1)
    (hG : G = V * Matrix.diagonal lam * Matrix.transpose V)
    (hs : ∀ k, s k * s k = clippedEig lam k)
    (hQ : Matrix.transpose Q * Q = 1)
    (hQR : reconstructX V s = Q * R)
    (heps : 0 ≤ eps) (hlam : ∀ k, -eps ≤ lam k) :
    ∀ i j, |(∑ k, R k i * R k j) - G i j| ≤ eps := by
  have hdd : Matrix.diagonal s * Matrix.diagonal s
      = Matrix.diagonal (clippedEig lam) := by
    rw [Matrix.diagonal_mul_diagonal]
    have hfun : (fun i => s i * s i) = clippedEig lam := funext hs
    rw [hfun]
  have hXX : Matrix.transpose (reconstructX V s) * reconstructX V s
      = V * Matrix.diagonal (clippedEig lam) * Matrix.transpose V := by
    rw [reconstructX, Matrix.transpose_transpose, Matrix.transpose_mul,
      Matrix.diagonal_transpose, Matrix.mul_assoc,
      ← Matrix.mul_assoc (Matrix.diagonal s) (Matrix.diagonal s) (Matrix.transpose V),
      hdd, ← Matrix.mul_assoc]
  have hRR : Matrix.transpose R * R
      = V * Matrix.diagonal (clippedEig lam) * Matrix.transpose V := by
    have h1 : Matrix.transpose (Q * R) * (Q * R) = Matrix.transpose R * R := by
      rw [Matrix.transpose_mul, Matrix.mul_assoc,
        ← Matrix.mul_assoc (Matrix.transpose Q) Q R, hQ, Matrix.one_mul]
    rw [← h1, ← hQR, hXX]
  have hentry : ∀ (c : n → K) (a b : n),
      (V * Matrix.diagonal c * Matrix.transpose V) a b = ∑ k, V a k * c k * V b k := by
    intro c a b
    rw [Matrix.mul_apply]
    refine Finset.sum_congr rfl fun k _ => ?_
    rw [Matrix.mul_diagonal, Matrix.transpose_apply]
  have hrow : ∀ a : n, (∑ k, V a k * V a k) = 1 := by
    intro a
    have h2 : (V * Matrix.transpose V) a a = (1 : Matrix n n K) a a := by rw [hV]
    rw [Matrix.mul_apply, Matrix.one_apply_eq] at h2
    simpa [Matrix.transpose_apply] using h2
  have hc0 : ∀ k, 0 ≤ clippedEig lam k - lam k := by
    intro k
    have h3 : lam k ≤ clippedEig lam k := le_max_left _ _
    linarith
  have hceps : ∀ k, clippedEig lam k - lam k ≤ eps := by
    intro k
    by_cases h0 : 0 ≤ lam k
    · have h4 : clippedEig lam k = lam k := max_eq_left h0
      rw [h4]
      simpa using heps
    · have h5 : clippedEig lam k = 0 := max_eq_right (le_of_lt (lt_of_not_le h0))
      rw [h5]
      have h6 := hlam k
      linarith
  intro i j
  have hsum : (∑ k, R k i * R k j) = (Matrix.transpose R * R) i j := by
    rw [Matrix.mul_apply]
    refine Finset.sum_congr rfl fun k _ => ?_
    rw [Matrix.transpose_apply]
  rw [hsum, hRR, hG, hentry, hentry, ← Finset.sum_sub_distrib]
  have hterm : ∀ k, V i k * clippedEig lam k * V j k - V i k * lam k * V j k
      = V i k * (clippedEig lam k - lam k) * V j k := fun k => by ring
  calc |∑ k, (V i k * clippedEig lam k * V j k - V i k * lam k * V j k)|
      = |∑ k, V i k * (clippedEig lam k - lam k) * V j k| :=
        congrArg abs (Finset.sum_congr rfl fun k _ => hterm k)
    _ ≤ ∑ k, |V i k * (clippedEig lam k - lam k) * V j k| :=
        Finset.abs_sum_le_sum_abs _ _
    _ ≤ ∑ k, eps * (V i k * V i k + V j k * V j k) / 2 := by
        refine Finset.sum_le_sum fun k _ => ?_
        rw [abs_mul, abs_mul, abs_of_nonneg (hc0 k)]
        nlinarith [abs_nonneg (V i k), abs_nonneg (V j k),
          sq_nonneg (|V i k| - |V j k|), abs_mul_abs_self (V i k),
          abs_mul_abs_self (V j k), hc0 k, hceps k, heps,
          mul_nonneg (abs_nonneg (V i k)) (abs_nonneg (V j k))]
    _ = eps := by
        have hsplit : ∀ k : n, eps * (V i k * V i k + V j k * V j k) / 2
            = eps / 2 * (V i k * V i k) + eps / 2 * (V j k * V j k) := fun k => by ring
        rw [Finset.sum_congr rfl fun k _ => hsplit k, Finset.sum_add_distrib,
          ← Finset.mul_sum, ← Finset.mul_sum, hrow i, hrow j]
        ring

/-- Witness for C4 at the identity instance with tolerance `1/1000000`. -/
theorem reconstruction_roundtrip_witness :
    |(∑ k : Fin 1, (1 : Matrix (Fin 1) (Fin 1) ℚ) k 0 * (1 : Matrix (Fin 1) (Fin 1) ℚ) k 0)
        - (1 : Matrix (Fin 1) (Fin 1) ℚ) 0 0| ≤ (1/1000000 : ℚ) := by
  have h := reconstruction_roundtrip (n := Fin 1) (K := ℚ)
    1 1 1 1 (fun _ => 1) (fun _ => 1) (1/1000000)
    (by simp) (by simp [Matrix.diagonal_one])
    (fun k => by norm_num [clippedEig, max_def])
    (by simp) (by simp [reconstructX, Matrix.diagonal_one]) (by norm_num)
    (fun k => by norm_num)
  exact h 0 0

end PEPit
